import Mathlib

/-!
# Verification of the zeno-build tutorial notebooks

A shallow embedding of the code in `docs/tutorial/01_visualization.ipynb`
and the text-generation tutorial notebook, together with models (built
from the specification) of the parts of the external `zeno_build` library
that the notebooks call: `ExperimentRun` construction, the run registry,
the metric functions, and the evaluation engine behind `visualize`.

Machine-present code (embedded directly from the notebooks):
* the ted_multi dataset-assembly loop (language-pair filter, truncation
  to 250 rows, lockstep appends to `srcs` and `trgs`);
* the prediction post-processing comprehension
  `[x.strip().split("\n")[0] for x in predictions]`.

Library code absent from the repository is modelled from the spec; each
such definition carries a doc comment saying so.
-/

namespace ZenoBuild

/-! ## Dataset assembly (embedded from the text-generation notebook) -/

/-- One row of the ted_multi dataset: the `datum["translations"]` record,
with its parallel `language` and `translation` lists. -/
structure Datum where
  language : List String
  translation : List String
  deriving Repr, DecidableEq

/-- The notebook's filter condition: the row is kept unless
`src_language not in datum["translations"]["language"] or
trg_language not in datum["translations"]["language"]`. -/
def langMatch (srcLang trgLang : String) (d : Datum) : Bool :=
  d.language.contains srcLang && d.language.contains trgLang

/-- Python `list.index`: index of the first occurrence.  The notebook only
calls it after the membership guard, so the element is present. -/
def pyIndex (l : List String) (x : String) : Nat :=
  l.indexOf x

/-- The value `datum["translations"]["translation"][idx]` read by the
notebook, where `idx` is the first index of the requested language.
Python indexing raises `IndexError` out of range; that case is the
`none` of `pyAt` below, and `extractAt` is the in-range value. -/
def extractAt (d : Datum) (lang : String) : String :=
  d.translation.getD (pyIndex d.language lang) ""

/-- Fallible Python list indexing `l[i]` (raises `IndexError` out of range). -/
def pyAt (l : List String) (i : Nat) : Option String :=
  l[i]?

/-- The notebook's dataset-assembly loop:

```python
srcs, trgs = [], []
for datum in dataset:
    if (src_language not in datum["translations"]["language"]
            or trg_language not in datum["translations"]["language"]):
        continue
    src_index = datum["translations"]["language"].index(src_language)
    trg_index = datum["translations"]["language"].index(trg_language)
    srcs.append(datum["translations"]["translation"][src_index])
    trgs.append(datum["translations"]["translation"][trg_index])
    if len(srcs) >= 250:
        break
```

parameterised over the truncation limit (250 in the notebook).  The two
list indexings can raise `IndexError` when a translations record has a
shorter `translation` list than `language` list; this surfaces as
`Except.error`. -/
def assemble (srcLang trgLang : String) (limit : Nat) :
    List Datum → List String → List String →
    Except String (List String × List String)
  | [], srcs, trgs => .ok (srcs, trgs)
  | d :: rest, srcs, trgs =>
    if langMatch srcLang trgLang d then
      match pyAt d.translation (pyIndex d.language srcLang),
            pyAt d.translation (pyIndex d.language trgLang) with
      | some s, some t =>
        if srcs.length + 1 ≥ limit then
          .ok (srcs ++ [s], trgs ++ [t])
        else
          assemble srcLang trgLang limit rest (srcs ++ [s]) (trgs ++ [t])
      | _, _ => .error "IndexError"
    else
      assemble srcLang trgLang limit rest srcs trgs

/-- A translations record is well formed when the translation list is at
least as long as the language list, so every `language.index` result is a
valid index into `translation` (ted_multi stores the two in parallel). -/
def Datum.wf (d : Datum) : Prop :=
  d.language.length ≤ d.translation.length

instance (d : Datum) : Decidable d.wf := by
  unfold Datum.wf; infer_instance

/-! ## Prediction post-processing (embedded from the text-generation notebook)

`predictions=[x.strip().split("\n")[0] for x in predictions]` -/

/-- The characters Python `str.strip()` removes by default. -/
def pyIsSpace (c : Char) : Bool :=
  c = ' ' || c = '\t' || c = '\n' || c = '\r' || c = '\x0b' || c = '\x0c'

/-- Python `str.strip()`: drop leading and trailing whitespace. -/
def pyStrip (s : String) : String :=
  String.mk (((s.data.dropWhile pyIsSpace).reverse.dropWhile pyIsSpace).reverse)

/-- Python `s.split("\n")[0]`: the prefix of `s` up to the first newline
(`"".split("\n")` is `[""]`, so this is total). -/
def pySplitFirst (s : String) : String :=
  String.mk (s.data.takeWhile (fun c => c ≠ '\n'))

/-- The comprehension `[x.strip().split("\n")[0] for x in predictions]`
applied before `ExperimentRun` construction. -/
def postprocess (predictions : List String) : List String :=
  predictions.map (fun x => pySplitFirst (pyStrip x))

/-! ## Data model (modelled from the spec; the library is not in the repo) -/

/-- Modelled from the spec: a scalar value, as appears in parameter
mappings (`{"model": "math_dunce", "skill": 3}`) and metadata fields. -/
inductive Scalar where
  | str (s : String)
  | num (n : Int)
  deriving Repr, DecidableEq

/-- Modelled from the spec: `Record` — one input example: input text,
gold label, zero or more named metadata fields; identity is the row
index, immutable once loaded. -/
structure Record where
  text : String
  label : String
  metadata : List (String × Scalar) := []
  deriving Repr, DecidableEq

instance : Inhabited Record := ⟨⟨"", "", []⟩⟩

/-- `ExperimentRun` as constructed in the notebooks: a name, a parameter
mapping and an ordered sequence of predictions (the class body lives in
the external library; the fields are those the notebooks pass). -/
structure ExperimentRun where
  name : String
  parameters : List (String × Scalar)
  predictions : List String
  deriving Repr, DecidableEq

/-- Modelled from the spec: the error taxonomy of §7. -/
inductive ZenoError where
  | shapeMismatch
  | duplicateRun
  | unsupportedMetric
  deriving Repr, DecidableEq

/-- Modelled from the spec: `ExperimentRun` construction validates
`len(predictions) == len(records)` and fails with `ShapeMismatchError`
otherwise. -/
def mkExperimentRun (records : List Record) (name : String)
    (parameters : List (String × Scalar)) (predictions : List String) :
    Except ZenoError ExperimentRun :=
  if predictions.length = records.length then
    .ok ⟨name, parameters, predictions⟩
  else
    .error .shapeMismatch

/-- Modelled from the spec: the Run Registry holds registered runs in
registration order. -/
structure Registry where
  runs : List ExperimentRun
  deriving Repr, DecidableEq

/-- Modelled from the spec: registering a run constructs an
`ExperimentRun` after validation; a failed registration returns the
error and produces no new registry state. -/
def registerRun (records : List Record) (reg : Registry) (name : String)
    (parameters : List (String × Scalar)) (predictions : List String) :
    Except ZenoError Registry :=
  match mkExperimentRun records name parameters predictions with
  | .ok run => .ok ⟨reg.runs ++ [run]⟩
  | .error e => .error e

/-! ## Metrics and the evaluation engine (modelled from the spec) -/

/-- Modelled from the spec: `MetricFunction` is a tagged variant —
per-example (single record, gold label, prediction → scalar) or
aggregate (full aligned collections → scalar) — dispatched on the tag.
A metric application that raises is modelled as returning `none`. -/
inductive MetricFunction where
  | perExample (name : String) (f : Record → String → String → Option ℚ)
  | aggregate (name : String) (f : List Record → List String → List String → Option ℚ)

/-- The declared name of a metric function. -/
def MetricFunction.mName : MetricFunction → String
  | .perExample n _ => n
  | .aggregate n _ => n

/-- Modelled from the spec: a `ReportTable` cell key — per-example cells
are keyed by (record index, run name, metric name), aggregate cells by
(run name, metric name). -/
inductive CellKey where
  | per (recordIndex : Nat) (runName : String) (metricName : String)
  | agg (runName : String) (metricName : String)
  deriving Repr, DecidableEq

/-- The metric name a cell key carries. -/
def CellKey.metricName : CellKey → String
  | .per _ _ n => n
  | .agg _ n => n

/-- Modelled from the spec: `ReportTable`, the derived read-only view
keyed by cell → score; a `none` score is the "metric unavailable"
sentinel recorded when the metric application for that cell raised. -/
structure ReportTable where
  cells : List (CellKey × Option ℚ)
  deriving DecidableEq

/-- The cells one metric contributes: a per-example metric is applied to
every (record, run) pair, an aggregate metric once per run.  A raising
application (`none`) yields the sentinel for that cell only; the
traversal itself never aborts. -/
def cellsOfMetric (records : List Record) (labels : List String)
    (runs : List ExperimentRun) : MetricFunction → List (CellKey × Option ℚ)
  | .perExample name f =>
    runs.flatMap (fun run =>
      (List.range records.length).map (fun i =>
        (CellKey.per i run.name name,
         f (records.getD i default) (labels.getD i "")
           (run.predictions.getD i ""))))
  | .aggregate name f =>
    runs.map (fun run =>
      (CellKey.agg run.name name, f records labels run.predictions))

/-- Modelled from the spec: the evaluation entry point behind
`visualize` — computes every metric for every (record, run) pair (per
example) or run (aggregate) and produces the `ReportTable`. -/
def evaluate (records : List Record) (labels : List String)
    (runs : List ExperimentRun) (metrics : List MetricFunction) : ReportTable :=
  ⟨metrics.flatMap (cellsOfMetric records labels runs)⟩

/-- Modelled from the spec: registering a batch of runs and then
evaluating; a structural error during registration is fatal at setup time
and no `ReportTable` (not even a partial one) is produced. -/
def registerAndVisualize (records : List Record) (labels : List String)
    (runSpecs : List (String × List (String × Scalar) × List String))
    (metrics : List MetricFunction) : Except ZenoError ReportTable :=
  match runSpecs.foldlM
      (fun reg spec => registerRun records reg spec.1 spec.2.1 spec.2.2)
      (⟨[]⟩ : Registry) with
  | .ok reg => .ok (evaluate records labels reg.runs metrics)
  | .error e => .error e

/-! ## The exact-match metrics (modelled from the spec) -/

/-- Modelled from the spec: the per-example exact-match metric
(`exact_match` in the first tutorial) — 1 if the prediction equals the
gold label, else 0. -/
def exact_match : MetricFunction :=
  .perExample "exact_match"
    (fun _ gold pred => some (if pred = gold then 1 else 0))

/-- Modelled from the spec: the aggregate exact-match metric
(`avg_exact_match`) — the mean of the per-example exact-match scores. -/
def avg_exact_match : MetricFunction :=
  .aggregate "avg_exact_match"
    (fun _ golds preds =>
      if preds.length = 0 then none
      else some (((golds.zip preds).map
        (fun gp => if gp.2 = gp.1 then (1 : ℚ) else 0)).sum / preds.length))

/-! ## Concrete data from the first tutorial notebook -/

/-- The four math questions with their gold labels and `operation_type`
metadata, as the notebook's data frame rows. -/
def mathRecords : List Record :=
  [⟨"What is 5+5?", "10", [("operation_type", .str "addition")]⟩,
   ⟨"What is 3+2?", "5", [("operation_type", .str "addition")]⟩,
   ⟨"What is 6-5?", "1", [("operation_type", .str "subtraction")]⟩,
   ⟨"What is 12-2?", "10", [("operation_type", .str "subtraction")]⟩]

/-- `labels = ["10", "5", "1", "10"]`. -/
def mathLabels : List String := ["10", "5", "1", "10"]

/-- `result1`, the `math_dunce` run with predictions `["5","4","1","5"]`. -/
def dunceRun : ExperimentRun :=
  ⟨"math_dunce", [("model", .str "math_dunce"), ("skill", .num 3)],
   ["5", "4", "1", "5"]⟩

instance : Inhabited ExperimentRun := ⟨⟨"", [], []⟩⟩

/-- Modelled from the spec: the Dataset Assembler's final step
(`pd.DataFrame({"text": srcs, "label": trgs})`) validates that the input
and label collections have equal length and fails with
`ShapeMismatchError` otherwise. -/
def mkFrame (srcs trgs : List String) : Except ZenoError (List Record) :=
  if srcs.length = trgs.length then
    .ok ((srcs.zip trgs).map (fun p => ⟨p.1, p.2, []⟩))
  else
    .error .shapeMismatch

/-! ## Theorems -/

/-- **C1.** For every record collection of length N, constructing an
`ExperimentRun` with a predictions sequence of length N succeeds;
constructing one with any other length fails with `ShapeMismatchError`;
and every accepted run satisfies `len(predictions) == len(records)`. -/
theorem mkExperimentRun_shape (records : List Record) (name : String)
    (parameters : List (String × Scalar)) (predictions : List String) :
    (predictions.length = records.length →
      mkExperimentRun records name parameters predictions =
        .ok ⟨name, parameters, predictions⟩) ∧
    (predictions.length ≠ records.length →
      mkExperimentRun records name parameters predictions =
        .error .shapeMismatch) ∧
    (∀ run, mkExperimentRun records name parameters predictions = .ok run →
      run.predictions.length = records.length) := by
  refine ⟨fun h => by simp [mkExperimentRun, h],
          fun h => by simp [mkExperimentRun, h], fun run h => ?_⟩
  by_cases hlen : predictions.length = records.length
  · simp [mkExperimentRun, hlen] at h
    subst h
    exact hlen
  · simp [mkExperimentRun, hlen] at h

/-- Witness for C1 at the tutorial's data: `math_dunce` (4 predictions,
4 records) is accepted; a 1-prediction run is rejected. -/
theorem mkExperimentRun_shape_witness :
    mkExperimentRun mathRecords "math_dunce" dunceRun.parameters
      dunceRun.predictions = .ok dunceRun ∧
    mkExperimentRun mathRecords "tiny" [] ["5"] = .error .shapeMismatch :=
  ⟨(mkExperimentRun_shape mathRecords "math_dunce" dunceRun.parameters
      dunceRun.predictions).1 (by decide),
   (mkExperimentRun_shape mathRecords "tiny" [] ["5"]).2.1 (by decide)⟩

/-- **C2.** On the four math questions with gold labels
`["10","5","1","10"]` and the `math_dunce` run with predictions
`["5","4","1","5"]`, the per-example exact-match scores are
`[0,0,1,0]` and the aggregate exact-match score is `1/4 = 0.25`. -/
theorem exact_match_scenario :
    (evaluate mathRecords mathLabels [dunceRun]
        [exact_match, avg_exact_match]).cells =
      [(.per 0 "math_dunce" "exact_match", some 0),
       (.per 1 "math_dunce" "exact_match", some 0),
       (.per 2 "math_dunce" "exact_match", some 1),
       (.per 3 "math_dunce" "exact_match", some 0),
       (.agg "math_dunce" "avg_exact_match", some (1 / 4))] := by
  simp [evaluate, cellsOfMetric, exact_match, avg_exact_match,
    mathRecords, mathLabels, dunceRun, List.range_succ]

/-- **C7.** Registering a run with 3 predictions against the 4-record
collection fails with `ShapeMismatchError` at construction time: the
pipeline returns the error and no `ReportTable` (not even a partial one)
is produced, and the failed registration yields no new registry state. -/
theorem shape_mismatch_scenario :
    registerAndVisualize mathRecords mathLabels
      [("math_short", [], ["5", "4", "1"])] [exact_match, avg_exact_match] =
      .error .shapeMismatch ∧
    registerRun mathRecords ⟨[]⟩ "math_short" [] ["5", "4", "1"] =
      .error .shapeMismatch := by
  constructor <;> rfl

/-- **C10.** The prediction post-processing
`[x.strip().split("\n")[0] for x in predictions]` maps every prediction
list to a list of the same length, whose i-th element is the first line
of the i-th prediction after stripping surrounding whitespace. -/
theorem postprocess_alignment (predictions : List String) :
    (postprocess predictions).length = predictions.length ∧
    ∀ i, (postprocess predictions).getD i "" =
      pySplitFirst (pyStrip (predictions.getD i "")) := by
  refine ⟨by simp [postprocess], ?_⟩
  intro i
  induction predictions generalizing i with
  | nil =>
    show ([] : List String).getD i "" = pySplitFirst (pyStrip "")
    rfl
  | cons p ps ih =>
    cases i with
    | zero => simp [postprocess]
    | succ n => simpa [postprocess] using ih n

/-- A small concrete ted_multi-style dataset used to instantiate the loop
theorems: two rows carry the fr/en pair (in different orders), one does
not. -/
def demoData : List Datum :=
  [⟨["fr", "en"], ["bonjour", "hello"]⟩,
   ⟨["de"], ["hallo"]⟩,
   ⟨["en", "fr"], ["goodbye", "au revoir"]⟩]

/-- When a well-formed row contains the requested language, the Python
indexing `translation[language.index(lang)]` is in range and returns
`extractAt`. -/
lemma pyAt_of_contains (d : Datum) (lang : String) (hwf : d.wf)
    (hc : d.language.contains lang = true) :
    pyAt d.translation (pyIndex d.language lang) = some (extractAt d lang) := by
  have hmem : lang ∈ d.language := by simpa using hc
  have hidx : pyIndex d.language lang < d.language.length := by
    simpa [pyIndex] using List.indexOf_lt_length.mpr hmem
  have hlt : pyIndex d.language lang < d.translation.length :=
    lt_of_lt_of_le hidx hwf
  simp [pyAt, extractAt, List.getElem?_eq_getElem hlt,
    List.getD_eq_getElem _ _ hlt]

/-- Characterization of the assembly loop with a partially filled
accumulator: as long as the accumulator is below the limit, the loop
returns the accumulators extended with the extracts of the first
`limit - srcs.length` matching rows, in source order. -/
lemma assemble_eq_take (srcLang trgLang : String) (limit : Nat) :
    ∀ (ds : List Datum) (srcs trgs : List String),
      (∀ d ∈ ds, langMatch srcLang trgLang d = true → d.wf) →
      srcs.length < limit →
      assemble srcLang trgLang limit ds srcs trgs =
        .ok (srcs ++ ((ds.filter (langMatch srcLang trgLang)).map
                (fun d => extractAt d srcLang)).take (limit - srcs.length),
             trgs ++ ((ds.filter (langMatch srcLang trgLang)).map
                (fun d => extractAt d trgLang)).take (limit - srcs.length)) := by
  intro ds
  induction ds with
  | nil =>
    intro srcs trgs _ _
    simp [assemble]
  | cons d rest ih =>
    intro srcs trgs hwf hlt
    cases hm : langMatch srcLang trgLang d with
    | false =>
      rw [assemble]
      simp only [hm, Bool.false_eq_true, if_false]
      rw [ih srcs trgs (fun d' hd' => hwf d' (List.mem_cons_of_mem d hd')) hlt]
      simp [List.filter_cons, hm]
    | true =>
      have hdwf : d.wf := hwf d (List.mem_cons_self d rest) hm
      have hcs : d.language.contains srcLang = true := by
        have := hm
        simp [langMatch] at this
        simpa using this.1
      have hct : d.language.contains trgLang = true := by
        have := hm
        simp [langMatch] at this
        simpa using this.2
      rw [assemble]
      simp only [hm, if_true]
      rw [pyAt_of_contains d srcLang hdwf hcs, pyAt_of_contains d trgLang hdwf hct]
      by_cases hbreak : srcs.length + 1 ≥ limit
      · have hlim : limit = srcs.length + 1 := Nat.le_antisymm hbreak hlt
        simp [hbreak, hlim, List.filter_cons, hm]
      · have hbreak' : srcs.length + 1 < limit := Nat.lt_of_not_le hbreak
        simp only [hbreak, if_false]
        rw [ih (srcs ++ [extractAt d srcLang]) (trgs ++ [extractAt d trgLang])
          (fun d' hd' => hwf d' (List.mem_cons_of_mem d hd'))
          (by simpa using hbreak')]
        have hsub : limit - srcs.length = (limit - (srcs.length + 1)) + 1 := by
          omega
        simp [List.filter_cons, hm, hsub, List.take_succ_cons,
          List.append_assoc]

/-- **C4.** The truncating assembly loop over any source dataset (whose
matching rows are well formed) returns exactly the first 250 matching
rows' extracts, in source order, and the resulting collection has length
exactly `min 250 matching_count`. -/
theorem assemble_truncation (srcLang trgLang : String) (ds : List Datum)
    (hwf : ∀ d ∈ ds, langMatch srcLang trgLang d = true → d.wf) :
    assemble srcLang trgLang 250 ds [] [] =
      .ok (((ds.filter (langMatch srcLang trgLang)).map
              (fun d => extractAt d srcLang)).take 250,
           ((ds.filter (langMatch srcLang trgLang)).map
              (fun d => extractAt d trgLang)).take 250) ∧
    (((ds.filter (langMatch srcLang trgLang)).map
        (fun d => extractAt d srcLang)).take 250).length =
      min 250 (ds.filter (langMatch srcLang trgLang)).length := by
  constructor
  · simpa using assemble_eq_take srcLang trgLang 250 ds [] [] hwf (by norm_num)
  · simp [List.length_take, List.length_map]

/-- Witness for C4 on the concrete demo dataset (2 of 3 rows match). -/
theorem assemble_truncation_witness :
    assemble "fr" "en" 250 demoData [] [] =
      .ok (((demoData.filter (langMatch "fr" "en")).map
              (fun d => extractAt d "fr")).take 250,
           ((demoData.filter (langMatch "fr" "en")).map
              (fun d => extractAt d "en")).take 250) ∧
    (((demoData.filter (langMatch "fr" "en")).map
        (fun d => extractAt d "fr")).take 250).length =
      min 250 (demoData.filter (langMatch "fr" "en")).length :=
  assemble_truncation "fr" "en" demoData (by decide)

/-- **C8.** The assembly loop appends to `srcs` and `trgs` in lockstep:
from any pair of equal-length accumulators, every successful run returns
equal-length lists, so the assembled frame's input and label columns have
equal length and the Dataset Assembler's length-mismatch failure path is
unreachable for this loader. -/
theorem assemble_lockstep (srcLang trgLang : String) (limit : Nat) :
    ∀ (ds : List Datum) (srcs trgs s t : List String),
      srcs.length = trgs.length →
      assemble srcLang trgLang limit ds srcs trgs = .ok (s, t) →
      s.length = t.length ∧
      mkFrame s t = .ok ((s.zip t).map (fun p => ⟨p.1, p.2, []⟩)) := by
  have key : ∀ (ds : List Datum) (srcs trgs s t : List String),
      srcs.length = trgs.length →
      assemble srcLang trgLang limit ds srcs trgs = .ok (s, t) →
      s.length = t.length := by
    intro ds
    induction ds with
    | nil =>
      intro srcs trgs s t hlen h
      simp [assemble] at h
      obtain ⟨hs, ht⟩ := h
      subst hs; subst ht
      exact hlen
    | cons d rest ih =>
      intro srcs trgs s t hlen h
      rw [assemble] at h
      cases hm : langMatch srcLang trgLang d with
      | false =>
        simp only [hm, Bool.false_eq_true, if_false] at h
        exact ih srcs trgs s t hlen h
      | true =>
        simp only [hm, if_true] at h
        cases hps : pyAt d.translation (pyIndex d.language srcLang) with
        | none => simp [hps] at h
        | some sv =>
          cases hpt : pyAt d.translation (pyIndex d.language trgLang) with
          | none => simp [hps, hpt] at h
          | some tv =>
            simp only [hps, hpt] at h
            by_cases hbreak : srcs.length + 1 ≥ limit
            · simp only [hbreak, if_true, Except.ok.injEq, Prod.mk.injEq] at h
              obtain ⟨hs, ht⟩ := h
              subst hs; subst ht
              simp [hlen]
            · simp only [hbreak, if_false] at h
              exact ih (srcs ++ [sv]) (trgs ++ [tv]) s t (by simp [hlen]) h
  intro ds srcs trgs s t hlen h
  have hst := key ds srcs trgs s t hlen h
  exact ⟨hst, by simp [mkFrame, hst]⟩

/-- Witness for C8: the demo dataset yields the aligned column pair
`(["bonjour", "au revoir"], ["hello", "goodbye"])`, which the frame
constructor accepts. -/
theorem assemble_lockstep_witness :
    (["bonjour", "au revoir"] : List String).length =
      (["hello", "goodbye"] : List String).length ∧
    mkFrame ["bonjour", "au revoir"] ["hello", "goodbye"] =
      .ok ((["bonjour", "au revoir"].zip ["hello", "goodbye"]).map
        (fun p => (⟨p.1, p.2, []⟩ : Record))) :=
  assemble_lockstep "fr" "en" 250 demoData [] []
    ["bonjour", "au revoir"] ["hello", "goodbye"] rfl (by rfl)

/-- **C9.** One iteration of the assembly loop at a well-formed row:
the row contributes a record exactly when both `"fr"` and `"en"` occur in
its `language` list, and the contributed input text and gold label are
the `translation` entries at the first index of `"fr"` and of `"en"`
respectively; otherwise the row is skipped unchanged. -/
theorem assemble_step (limit : Nat) (d : Datum) (rest : List Datum)
    (srcs trgs : List String) (hwf : langMatch "fr" "en" d = true → d.wf) :
    assemble "fr" "en" limit (d :: rest) srcs trgs =
      if d.language.contains "fr" && d.language.contains "en" then
        (if srcs.length + 1 ≥ limit then
          .ok (srcs ++ [d.translation.getD (pyIndex d.language "fr") ""],
               trgs ++ [d.translation.getD (pyIndex d.language "en") ""])
        else
          assemble "fr" "en" limit rest
            (srcs ++ [d.translation.getD (pyIndex d.language "fr") ""])
            (trgs ++ [d.translation.getD (pyIndex d.language "en") ""]))
      else assemble "fr" "en" limit rest srcs trgs := by
  cases hm : langMatch "fr" "en" d with
  | false =>
    rw [assemble]
    have hm' : (d.language.contains "fr" && d.language.contains "en") = false := hm
    simp only [hm, hm', Bool.false_eq_true, if_false]
  | true =>
    have hdwf : d.wf := hwf hm
    have hcs : d.language.contains "fr" = true := by
      have := hm
      simp [langMatch] at this
      simpa using this.1
    have hct : d.language.contains "en" = true := by
      have := hm
      simp [langMatch] at this
      simpa using this.2
    rw [assemble]
    have hm' : (d.language.contains "fr" && d.language.contains "en") = true := hm
    simp only [hm, hm', if_true]
    rw [pyAt_of_contains d "fr" hdwf hcs, pyAt_of_contains d "en" hdwf hct]
    simp [extractAt]

/-- Witness for C9 at a concrete matching row below the limit. -/
theorem assemble_step_witness :
    assemble "fr" "en" 250
        ((⟨["fr", "en"], ["salut", "hi"]⟩ : Datum) :: []) [] [] =
      if (⟨["fr", "en"], ["salut", "hi"]⟩ : Datum).language.contains "fr" &&
          (⟨["fr", "en"], ["salut", "hi"]⟩ : Datum).language.contains "en" then
        (if ([] : List String).length + 1 ≥ 250 then
          .ok (([] : List String) ++
                [(⟨["fr", "en"], ["salut", "hi"]⟩ : Datum).translation.getD
                  (pyIndex (⟨["fr", "en"], ["salut", "hi"]⟩ : Datum).language "fr") ""],
               ([] : List String) ++
                [(⟨["fr", "en"], ["salut", "hi"]⟩ : Datum).translation.getD
                  (pyIndex (⟨["fr", "en"], ["salut", "hi"]⟩ : Datum).language "en") ""])
        else
          assemble "fr" "en" 250 []
            (([] : List String) ++
              [(⟨["fr", "en"], ["salut", "hi"]⟩ : Datum).translation.getD
                (pyIndex (⟨["fr", "en"], ["salut", "hi"]⟩ : Datum).language "fr") ""])
            (([] : List String) ++
              [(⟨["fr", "en"], ["salut", "hi"]⟩ : Datum).translation.getD
                (pyIndex (⟨["fr", "en"], ["salut", "hi"]⟩ : Datum).language "en") ""]))
      else assemble "fr" "en" 250 [] [] [] :=
  assemble_step 250 ⟨["fr", "en"], ["salut", "hi"]⟩ [] [] [] (fun _ => by decide)

/-- Every cell a metric contributes is keyed with that metric's name. -/
lemma metricName_of_mem_cells (records : List Record) (labels : List String)
    (runs : List ExperimentRun) (m : MetricFunction) :
    ∀ c ∈ cellsOfMetric records labels runs m,
      c.1.metricName = m.mName := by
  intro c hc
  cases m with
  | perExample n f =>
    simp only [cellsOfMetric, List.mem_flatMap, List.mem_map,
      List.mem_range] at hc
    obtain ⟨run, _, i, _, hc⟩ := hc
    rw [← hc]
    rfl
  | aggregate n f =>
    simp only [cellsOfMetric, List.mem_map] at hc
    obtain ⟨run, _, hc⟩ := hc
    rw [← hc]
    rfl

/-- Filtering keeps everything when the predicate holds everywhere. -/
lemma filter_length_of_all {α : Type} (p : α → Bool) (l : List α)
    (h : ∀ a ∈ l, p a = true) : (l.filter p).length = l.length := by
  rw [List.filter_eq_self.mpr h]

/-- Filtering removes everything when the predicate fails everywhere. -/
lemma filter_eq_nil_of_none {α : Type} (p : α → Bool) (l : List α)
    (h : ∀ a ∈ l, p a = false) : l.filter p = [] := by
  induction l with
  | nil => rfl
  | cons a l ih =>
    rw [List.filter_cons, h a (List.mem_cons_self a l)]
    exact ih (fun b hb => h b (List.mem_cons_of_mem a hb))

/-- A per-example metric contributes `N * R` cells. -/
lemma length_cells_perExample (records : List Record) (labels : List String)
    (runs : List ExperimentRun) (name : String)
    (f : Record → String → String → Option ℚ) :
    (cellsOfMetric records labels runs (.perExample name f)).length =
      records.length * runs.length := by
  induction runs with
  | nil => simp [cellsOfMetric]
  | cons run rs ih =>
    simp only [cellsOfMetric, List.flatMap_cons, List.length_append,
      List.length_map, List.length_range] at ih ⊢
    rw [ih, List.length_cons, Nat.mul_succ, Nat.add_comm]

/-- An aggregate metric contributes `R` cells. -/
lemma length_cells_aggregate (records : List Record) (labels : List String)
    (runs : List ExperimentRun) (name : String)
    (f : List Record → List String → List String → Option ℚ) :
    (cellsOfMetric records labels runs (.aggregate name f)).length =
      runs.length := by
  simp [cellsOfMetric]

/-- The number of cells the spec requires of one metric: `N * R` for a
per-example metric, `R` for an aggregate one. -/
def MetricFunction.cellCount (m : MetricFunction) (numRecords numRuns : Nat) :
    Nat :=
  match m with
  | .perExample _ _ => numRecords * numRuns
  | .aggregate _ _ => numRuns

/-- **C5.** In any evaluation over `N` records and `R` runs with
distinctly named metrics, the `ReportTable` holds exactly `N * R` cells
for each per-example metric and exactly `R` cells for each aggregate
metric. -/
theorem report_cell_counts (records : List Record) (labels : List String)
    (runs : List ExperimentRun) (metrics : List MetricFunction)
    (m : MetricFunction) (hm : m ∈ metrics)
    (hnd : (metrics.map MetricFunction.mName).Nodup) :
    ((evaluate records labels runs metrics).cells.filter
        (fun c => c.1.metricName == m.mName)).length =
      m.cellCount records.length runs.length := by
  induction metrics with
  | nil => cases hm
  | cons m0 ms ih =>
    have hcells : (evaluate records labels runs (m0 :: ms)).cells =
        cellsOfMetric records labels runs m0 ++
          (evaluate records labels runs ms).cells := by
      simp [evaluate]
    rw [hcells, List.filter_append, List.length_append]
    rcases List.mem_cons.mp hm with rfl | hm'
    · have hall : ∀ c ∈ cellsOfMetric records labels runs m,
          (c.1.metricName == m.mName) = true := by
        intro c hc
        simp [metricName_of_mem_cells records labels runs m c hc]
      have hnotin : m.mName ∉ ms.map MetricFunction.mName :=
        (List.nodup_cons.mp hnd).1
      have hrest : ((evaluate records labels runs ms).cells.filter
          (fun c => c.1.metricName == m.mName)) = [] := by
        apply filter_eq_nil_of_none
        intro c hc
        have : ∀ m' ∈ ms, ∀ c ∈ cellsOfMetric records labels runs m',
            c.1.metricName = m'.mName :=
          fun m' _ => metricName_of_mem_cells records labels runs m'
        simp only [evaluate, List.mem_flatMap] at hc
        obtain ⟨m', hm', hc'⟩ := hc
        have hname := metricName_of_mem_cells records labels runs m' c hc'
        have hne : m'.mName ≠ m.mName := by
          intro heq
          exact hnotin (heq ▸ List.mem_map_of_mem MetricFunction.mName hm')
        simp [hname, hne]
      rw [filter_length_of_all _ _ hall, hrest]
      cases m with
      | perExample n f =>
        simpa [MetricFunction.cellCount] using
          length_cells_perExample records labels runs n f
      | aggregate n f =>
        simpa [MetricFunction.cellCount] using
          length_cells_aggregate records labels runs n f
    · have hne : m0.mName ≠ m.mName := by
        intro heq
        exact (List.nodup_cons.mp hnd).1
          (heq ▸ List.mem_map_of_mem MetricFunction.mName hm')
      have hhead : (cellsOfMetric records labels runs m0).filter
          (fun c => c.1.metricName == m.mName) = [] := by
        apply filter_eq_nil_of_none
        intro c hc
        have hname := metricName_of_mem_cells records labels runs m0 c hc
        simp [hname, hne]
      rw [hhead]
      simpa using ih hm' (List.nodup_cons.mp hnd).2

/-- Witness for C5: with 4 records, one run, and the two exact-match
metrics, the per-example metric has 4 cells. -/
theorem report_cell_counts_witness :
    ((evaluate mathRecords mathLabels [dunceRun]
        [exact_match, avg_exact_match]).cells.filter
          (fun c => c.1.metricName == exact_match.mName)).length =
      exact_match.cellCount mathRecords.length
        ([dunceRun] : List ExperimentRun).length :=
  report_cell_counts mathRecords mathLabels [dunceRun]
    [exact_match, avg_exact_match] exact_match
    (List.mem_cons_self _ _) (by simp [exact_match, avg_exact_match, MetricFunction.mName])

/-- Extensional agreement of two metric functions: same tag, same name,
same output on every input. -/
def MetricFunction.equiv : MetricFunction → MetricFunction → Prop
  | .perExample n f, .perExample n' f' =>
      n = n' ∧ ∀ rec gold pred, f rec gold pred = f' rec gold pred
  | .aggregate n f, .aggregate n' f' =>
      n = n' ∧ ∀ recs golds preds, f recs golds preds = f' recs golds preds
  | _, _ => False

/-- A metric determines its cells only through its outputs. -/
lemma cellsOfMetric_congr (records : List Record) (labels : List String)
    (runs : List ExperimentRun) {m m' : MetricFunction}
    (h : m.equiv m') :
    cellsOfMetric records labels runs m =
      cellsOfMetric records labels runs m' := by
  cases m with
  | perExample n f =>
    cases m' with
    | perExample n' f' =>
      obtain ⟨hn, hf⟩ := h
      subst hn
      simp only [cellsOfMetric]
      have : (fun (run : ExperimentRun) =>
          (List.range records.length).map (fun i =>
            (CellKey.per i run.name n,
             f (records.getD i default) (labels.getD i "")
               (run.predictions.getD i "")))) =
          (fun (run : ExperimentRun) =>
          (List.range records.length).map (fun i =>
            (CellKey.per i run.name n,
             f' (records.getD i default) (labels.getD i "")
               (run.predictions.getD i "")))) := by
        funext run
        apply List.map_congr_left
        intro i _
        rw [hf]
      rw [this]
    | aggregate n' f' => exact h.elim
  | aggregate n f =>
    cases m' with
    | perExample n' f' => exact h.elim
    | aggregate n' f' =>
      obtain ⟨hn, hf⟩ := h
      subst hn
      simp only [cellsOfMetric]
      have : (fun (run : ExperimentRun) =>
          (CellKey.agg run.name n, f records labels run.predictions)) =
          (fun (run : ExperimentRun) =>
          (CellKey.agg run.name n, f' records labels run.predictions)) := by
        funext run
        rw [hf]
      rw [this]

/-- **C6.** Evaluation is deterministic: it is a pure function of its
inputs, and any two metric sets that agree pointwise (every metric
function deterministic in its inputs and side-effect-free) produce
identical `ReportTable`s. -/
theorem evaluate_deterministic (records : List Record) (labels : List String)
    (runs : List ExperimentRun) (ms ms' : List MetricFunction)
    (h : List.Forall₂ MetricFunction.equiv ms ms') :
    evaluate records labels runs ms = evaluate records labels runs ms' := by
  unfold evaluate
  congr 1
  induction h with
  | nil => rfl
  | cons hab _ ih =>
    simp only [List.flatMap_cons]
    rw [cellsOfMetric_congr records labels runs hab, ih]

/-- Witness for C6: re-running with the same metric set gives the same
table. -/
theorem evaluate_deterministic_witness :
    evaluate mathRecords mathLabels [dunceRun] [exact_match] =
      evaluate mathRecords mathLabels [dunceRun] [exact_match] :=
  evaluate_deterministic mathRecords mathLabels [dunceRun]
    [exact_match] [exact_match]
    (List.Forall₂.cons ⟨rfl, fun _ _ _ => rfl⟩ List.Forall₂.nil)

/-- The out-of-range default used when reading table cells by index. -/
def dummyCell : CellKey × Option ℚ := (.agg "" "", none)

/-- The cells of a per-example metric, read at flat index
`r * N + i`: the cell for record `i` of run `r`. -/
lemma perCells_getD (records : List Record) (labels : List String)
    (name : String) (f : Record → String → String → Option ℚ) :
    ∀ (runs : List ExperimentRun) (r i : Nat),
      r < runs.length → i < records.length →
      (cellsOfMetric records labels runs (.perExample name f)).getD
          (r * records.length + i) dummyCell =
        (CellKey.per i (runs.getD r default).name name,
         f (records.getD i default) (labels.getD i "")
           ((runs.getD r default).predictions.getD i "")) := by
  intro runs
  induction runs with
  | nil =>
    intro r i hr _
    exact absurd hr (Nat.not_lt_zero r)
  | cons run rs ih =>
    intro r i hr hi
    simp only [cellsOfMetric, List.flatMap_cons]
    have hunfold : cellsOfMetric records labels rs (.perExample name f) =
        rs.flatMap (fun run =>
          (List.range records.length).map (fun i =>
            (CellKey.per i run.name name,
             f (records.getD i default) (labels.getD i "")
               (run.predictions.getD i "")))) := rfl
    cases r with
    | zero =>
      have hidx : 0 * records.length + i <
          ((List.range records.length).map (fun i =>
            (CellKey.per i run.name name,
             f (records.getD i default) (labels.getD i "")
               (run.predictions.getD i "")))).length := by
        simpa using hi
      rw [List.getD_append _ _ _ _ hidx]
      simp only [Nat.zero_mul, Nat.zero_add, List.getD_cons_zero]
      rw [List.getD_eq_getElem _ _ (by simpa using hi)]
      simp [List.getElem_map, List.getElem_range]
    | succ r' =>
      have hge : ((List.range records.length).map (fun i =>
          (CellKey.per i run.name name,
           f (records.getD i default) (labels.getD i "")
             (run.predictions.getD i "")))).length ≤
          (r' + 1) * records.length + i := by
        have h1 : records.length ≤ (r' + 1) * records.length :=
          Nat.le_mul_of_pos_left _ (Nat.succ_pos r')
        simpa using Nat.le_trans h1 (Nat.le_add_right _ i)
      rw [List.getD_append_right _ _ _ _ hge]
      have harith : (r' + 1) * records.length + i -
          ((List.range records.length).map (fun i =>
            (CellKey.per i run.name name,
             f (records.getD i default) (labels.getD i "")
               (run.predictions.getD i "")))).length =
          r' * records.length + i := by
        have h2 : (r' + 1) * records.length =
            r' * records.length + records.length := by ring
        simp only [List.length_map, List.length_range]
        omega
      rw [harith, ← hunfold, List.getD_cons_succ]
      exact ih r' i (Nat.lt_of_succ_lt_succ hr) hi

/-- Away from the failing position, the per-example cell blocks of `f`
and of `fFail` agree at every flat index of the `N * R` block. -/
lemma perCells_getD_ne (records : List Record) (labels : List String)
    (name : String) (f fFail : Record → String → String → Option ℚ)
    (runs : List ExperimentRun) (r₀ i₀ : Nat)
    (hi₀ : i₀ < records.length)
    (hagree : ∀ r, r < runs.length → ∀ i, i < records.length →
      ¬(r = r₀ ∧ i = i₀) →
      fFail (records.getD i default) (labels.getD i "")
          ((runs.getD r default).predictions.getD i "") =
        f (records.getD i default) (labels.getD i "")
          ((runs.getD r default).predictions.getD i "")) :
    ∀ k, k < records.length * runs.length →
      k ≠ r₀ * records.length + i₀ →
      (cellsOfMetric records labels runs (.perExample name fFail)).getD
          k dummyCell =
        (cellsOfMetric records labels runs (.perExample name f)).getD
          k dummyCell := by
  intro k hk hne
  have hN : 0 < records.length := Nat.lt_of_le_of_lt (Nat.zero_le i₀) hi₀
  have hi : k % records.length < records.length := Nat.mod_lt _ hN
  have hr : k / records.length < runs.length := by
    rw [Nat.div_lt_iff_lt_mul hN, Nat.mul_comm]
    exact hk
  have hdecomp : k = k / records.length * records.length +
      k % records.length := by
    have h := (Nat.div_add_mod k records.length).symm
    rwa [Nat.mul_comm] at h
  obtain ⟨r, i, hk_eq, hrlt, hilt⟩ :
      ∃ r i, k = r * records.length + i ∧ r < runs.length ∧
        i < records.length :=
    ⟨k / records.length, k % records.length, hdecomp, hr, hi⟩
  subst hk_eq
  have hne' : ¬(r = r₀ ∧ i = i₀) := by
    rintro ⟨rfl, rfl⟩
    exact hne rfl
  rw [perCells_getD records labels name fFail runs r i hrlt hilt,
    perCells_getD records labels name f runs r i hrlt hilt,
    hagree r hrlt i hilt hne']

/-- **C3.** Partial-failure isolation, over any evaluation: for any
metric set `pre ++ [per-example metric] ++ post` in which exactly one
application of that metric raises (returns the sentinel) — at the single
`(record i₀, run r₀)` pair — and no application raises otherwise, the
evaluation does not abort (the table keeps its full cell count), every
other cell of the resulting `ReportTable` equals the value it would have
without the failure, and the "metric unavailable" sentinel appears in
exactly that one cell. -/
theorem partial_failure_isolation (records : List Record)
    (labels : List String) (runs : List ExperimentRun)
    (pre post : List MetricFunction) (name : String)
    (f fFail : Record → String → String → Option ℚ) (r₀ i₀ : Nat)
    (hr₀ : r₀ < runs.length) (hi₀ : i₀ < records.length)
    (hbad : fFail (records.getD i₀ default) (labels.getD i₀ "")
        ((runs.getD r₀ default).predictions.getD i₀ "") = none)
    (hagree : ∀ r, r < runs.length → ∀ i, i < records.length →
      ¬(r = r₀ ∧ i = i₀) →
      fFail (records.getD i default) (labels.getD i "")
          ((runs.getD r default).predictions.getD i "") =
        f (records.getD i default) (labels.getD i "")
          ((runs.getD r default).predictions.getD i ""))
    (hclean : ∀ c ∈ (evaluate records labels runs
        (pre ++ MetricFunction.perExample name f :: post)).cells,
      c.2 ≠ none) :
    (evaluate records labels runs
        (pre ++ MetricFunction.perExample name fFail :: post)).cells.length =
      (evaluate records labels runs
        (pre ++ MetricFunction.perExample name f :: post)).cells.length ∧
    (∀ j, j ≠ (evaluate records labels runs pre).cells.length +
        (r₀ * records.length + i₀) →
      (evaluate records labels runs
          (pre ++ MetricFunction.perExample name fFail :: post)).cells.getD
          j dummyCell =
        (evaluate records labels runs
          (pre ++ MetricFunction.perExample name f :: post)).cells.getD
          j dummyCell) ∧
    ((evaluate records labels runs
        (pre ++ MetricFunction.perExample name fFail :: post)).cells.getD
        ((evaluate records labels runs pre).cells.length +
          (r₀ * records.length + i₀)) dummyCell).1 =
      ((evaluate records labels runs
        (pre ++ MetricFunction.perExample name f :: post)).cells.getD
        ((evaluate records labels runs pre).cells.length +
          (r₀ * records.length + i₀)) dummyCell).1 ∧
    (∀ j, j < (evaluate records labels runs
        (pre ++ MetricFunction.perExample name fFail :: post)).cells.length →
      (((evaluate records labels runs
          (pre ++ MetricFunction.perExample name fFail :: post)).cells.getD
          j dummyCell).2 = none ↔
        j = (evaluate records labels runs pre).cells.length +
          (r₀ * records.length + i₀))) := by
  have hsplit : ∀ m : MetricFunction,
      (evaluate records labels runs (pre ++ m :: post)).cells =
        (evaluate records labels runs pre).cells ++
          (cellsOfMetric records labels runs m ++
            (evaluate records labels runs post).cells) := by
    intro m
    simp [evaluate, List.flatMap_append]
  have hBlenF : (cellsOfMetric records labels runs
      (.perExample name fFail)).length = records.length * runs.length :=
    length_cells_perExample records labels runs name fFail
  have hBlen : (cellsOfMetric records labels runs
      (.perExample name f)).length = records.length * runs.length :=
    length_cells_perExample records labels runs name f
  have hj₀lt : r₀ * records.length + i₀ < records.length * runs.length := by
    have h1 : r₀ * records.length + i₀ < (r₀ + 1) * records.length := by
      rw [Nat.succ_mul]
      omega
    have h2 : (r₀ + 1) * records.length ≤ runs.length * records.length :=
      Nat.mul_le_mul_right _ hr₀
    calc r₀ * records.length + i₀ < (r₀ + 1) * records.length := h1
      _ ≤ runs.length * records.length := h2
      _ = records.length * runs.length := Nat.mul_comm _ _
  have hlen : (evaluate records labels runs
      (pre ++ MetricFunction.perExample name fFail :: post)).cells.length =
      (evaluate records labels runs
        (pre ++ MetricFunction.perExample name f :: post)).cells.length := by
    rw [hsplit, hsplit]
    simp [hBlenF, hBlen]
  have hagreeCells : ∀ j,
      j ≠ (evaluate records labels runs pre).cells.length +
        (r₀ * records.length + i₀) →
      (evaluate records labels runs
          (pre ++ MetricFunction.perExample name fFail :: post)).cells.getD
          j dummyCell =
        (evaluate records labels runs
          (pre ++ MetricFunction.perExample name f :: post)).cells.getD
          j dummyCell := by
    intro j hj
    rw [hsplit, hsplit]
    by_cases hjA : j < (evaluate records labels runs pre).cells.length
    · rw [List.getD_append _ _ _ _ hjA, List.getD_append _ _ _ _ hjA]
    · push_neg at hjA
      rw [List.getD_append_right _ _ _ _ hjA,
        List.getD_append_right _ _ _ _ hjA]
      have hk_ne : j - (evaluate records labels runs pre).cells.length ≠
          r₀ * records.length + i₀ := by
        omega
      by_cases hkB : j - (evaluate records labels runs pre).cells.length <
          records.length * runs.length
      · rw [List.getD_append _ _ _ _ (by rw [hBlenF]; exact hkB),
          List.getD_append _ _ _ _ (by rw [hBlen]; exact hkB)]
        exact perCells_getD_ne records labels name f fFail runs r₀ i₀
          hi₀ hagree _ hkB hk_ne
      · push_neg at hkB
        rw [List.getD_append_right _ _ _ _ (by rw [hBlenF]; exact hkB),
          List.getD_append_right _ _ _ _ (by rw [hBlen]; exact hkB),
          hBlenF, hBlen]
  have hbadcell : (evaluate records labels runs
      (pre ++ MetricFunction.perExample name fFail :: post)).cells.getD
      ((evaluate records labels runs pre).cells.length +
        (r₀ * records.length + i₀)) dummyCell =
      (CellKey.per i₀ (runs.getD r₀ default).name name,
       fFail (records.getD i₀ default) (labels.getD i₀ "")
         ((runs.getD r₀ default).predictions.getD i₀ "")) := by
    rw [hsplit, List.getD_append_right _ _ _ _ (Nat.le_add_right _ _),
      Nat.add_sub_cancel_left,
      List.getD_append _ _ _ _ (by rw [hBlenF]; exact hj₀lt)]
    exact perCells_getD records labels name fFail runs r₀ i₀ hr₀ hi₀
  have hgoodcell : (evaluate records labels runs
      (pre ++ MetricFunction.perExample name f :: post)).cells.getD
      ((evaluate records labels runs pre).cells.length +
        (r₀ * records.length + i₀)) dummyCell =
      (CellKey.per i₀ (runs.getD r₀ default).name name,
       f (records.getD i₀ default) (labels.getD i₀ "")
         ((runs.getD r₀ default).predictions.getD i₀ "")) := by
    rw [hsplit, List.getD_append_right _ _ _ _ (Nat.le_add_right _ _),
      Nat.add_sub_cancel_left,
      List.getD_append _ _ _ _ (by rw [hBlen]; exact hj₀lt)]
    exact perCells_getD records labels name f runs r₀ i₀ hr₀ hi₀
  refine ⟨hlen, hagreeCells, by rw [hbadcell, hgoodcell], ?_⟩
  intro j hjlen
  constructor
  · intro hnone
    by_contra hne
    have hmem : (evaluate records labels runs
        (pre ++ MetricFunction.perExample name f :: post)).cells.getD
        j dummyCell ∈ (evaluate records labels runs
          (pre ++ MetricFunction.perExample name f :: post)).cells := by
      rw [List.getD_eq_getElem _ _ (by rw [← hlen]; exact hjlen)]
      exact List.getElem_mem _
    exact hclean _ hmem (by rw [← hagreeCells j hne]; exact hnone)
  · intro hj
    rw [hj, hbadcell]
    exact hbad

/-- The per-example exact-match scoring function on its own. -/
def emScore : Record → String → String → Option ℚ :=
  fun _ gold pred => some (if pred = gold then 1 else 0)

/-- A failing variant of `emScore`: its application raises (returns the
sentinel) exactly on the third math question. -/
def emScoreFail : Record → String → String → Option ℚ :=
  fun rec gold pred =>
    if rec.text = "What is 6-5?" then none else emScore rec gold pred

/-- Witness for C3: a two-metric evaluation (aggregate exact-match, then
per-example exact-match) over the 4 math records and the `math_dunce`
run, where the per-example metric fails only on record 2: all other
cells — the aggregate metric's included — keep their failure-free
values, and the sentinel sits exactly in that one cell. -/
theorem partial_failure_isolation_witness :
    (evaluate mathRecords mathLabels [dunceRun]
        ([avg_exact_match] ++
          MetricFunction.perExample "exact_match" emScoreFail ::
            [])).cells.length =
      (evaluate mathRecords mathLabels [dunceRun]
        ([avg_exact_match] ++
          MetricFunction.perExample "exact_match" emScore ::
            [])).cells.length ∧
    (∀ j, j ≠ (evaluate mathRecords mathLabels [dunceRun]
        [avg_exact_match]).cells.length + (0 * mathRecords.length + 2) →
      (evaluate mathRecords mathLabels [dunceRun]
          ([avg_exact_match] ++
            MetricFunction.perExample "exact_match" emScoreFail ::
              [])).cells.getD j dummyCell =
        (evaluate mathRecords mathLabels [dunceRun]
          ([avg_exact_match] ++
            MetricFunction.perExample "exact_match" emScore ::
              [])).cells.getD j dummyCell) ∧
    ((evaluate mathRecords mathLabels [dunceRun]
        ([avg_exact_match] ++
          MetricFunction.perExample "exact_match" emScoreFail ::
            [])).cells.getD
        ((evaluate mathRecords mathLabels [dunceRun]
          [avg_exact_match]).cells.length +
            (0 * mathRecords.length + 2)) dummyCell).1 =
      ((evaluate mathRecords mathLabels [dunceRun]
        ([avg_exact_match] ++
          MetricFunction.perExample "exact_match" emScore ::
            [])).cells.getD
        ((evaluate mathRecords mathLabels [dunceRun]
          [avg_exact_match]).cells.length +
            (0 * mathRecords.length + 2)) dummyCell).1 ∧
    (∀ j, j < (evaluate mathRecords mathLabels [dunceRun]
        ([avg_exact_match] ++
          MetricFunction.perExample "exact_match" emScoreFail ::
            [])).cells.length →
      (((evaluate mathRecords mathLabels [dunceRun]
          ([avg_exact_match] ++
            MetricFunction.perExample "exact_match" emScoreFail ::
              [])).cells.getD j dummyCell).2 = none ↔
        j = (evaluate mathRecords mathLabels [dunceRun]
          [avg_exact_match]).cells.length +
            (0 * mathRecords.length + 2))) :=
  partial_failure_isolation mathRecords mathLabels [dunceRun]
    [avg_exact_match] [] "exact_match" emScore emScoreFail 0 2
    (by decide) (by decide) (by decide) (by decide) (by decide)

end ZenoBuild
